import Mathlib

/-!
# Workflow orchestrator of `medical-mirror-observer`, shallowly embedded

This file embeds the workflow-orchestration core of
`src/server/src/storage/references-store.js`: the context interpolator
(`interpolateParams`), the condition evaluator (`evaluateCondition`), the step
executor (`executeStep`) and the workflow engine (`executeWorkflow`), together
with the service-action dispatchers, and proves the specification claims about
them.

Modelling conventions:
* JavaScript values are the inductive `JSValue`; JS numbers are modelled as
  integers (every number occurring in the claims is integral).
* Objects are association lists in insertion order; property lookup collapses
  a stored `undefined` and an absent key, exactly as JS property access does.
* Network calls made by the dispatchers (`fetch`, the Claude-Team hub) are
  oracles (`Services`); broadcasts and logging have no observable effect on
  the engine's result and are omitted.
* A thrown error / rejected promise is the `.err` case of `StepOutcome`;
  `await` on a successful promise is the `.ok` case.
* The regex replacement `value.replace(/\x7b\x7b(\w+)\x7d\x7d/g, ...)` is
  embedded as the left-to-right scanner `interpChars`; `\w` is ASCII
  `[A-Za-z0-9_]`, matching the JS regex.
-/

namespace Workflows

/-- JavaScript values, with JS numbers restricted to integers. -/
inductive JSValue where
  | undefined
  | null
  | bool (b : Bool)
  | num (n : Int)
  | str (s : String)
  | obj (entries : List (String × JSValue))
  | arr (elems : List JSValue)
deriving Repr

/-- A JS object used as a plain string-keyed map (the execution context). -/
abbrev Ctx := List (String × JSValue)

/-- JS property access `ctx[k]`: `undefined` when the key is absent. -/
def ctxGet (ctx : Ctx) (k : String) : JSValue :=
  match List.lookup k ctx with
  | some v => v
  | none => .undefined

mutual

/-- JS `String(v)` coercion (for the values representable in this model). -/
def jsToString : JSValue → String
  | .undefined => "undefined"
  | .null => "null"
  | .bool true => "true"
  | .bool false => "false"
  | .num n => toString n
  | .str s => s
  | .obj _ => "[object Object]"
  | .arr xs => String.intercalate "," (arrStrings xs)

/-- Element strings of `Array.prototype.toString`: `join(',')` renders null
and undefined elements as empty strings and string-coerces the rest. -/
def arrStrings : List JSValue → List String
  | [] => []
  | .undefined :: vs => "" :: arrStrings vs
  | .null :: vs => "" :: arrStrings vs
  | v :: vs => jsToString v :: arrStrings vs

end

/-- JS truthiness (`if (v)`), for the values of this model. -/
def jsTruthy : JSValue → Bool
  | .undefined => false
  | .null => false
  | .bool b => b
  | .num n => n != 0
  | .str s => !s.isEmpty
  | .obj _ => true
  | .arr _ => true

/-- The character class `\w` of the JS regex: ASCII `[A-Za-z0-9_]`. -/
def isWordChar (c : Char) : Bool :=
  c.isAlphanum || c == '_'

/--
Replacement callback of
`value.replace(/\x7b\x7b(\w+)\x7d\x7d/g, (match, varName) =>
  context[varName] !== undefined ? context[varName] : match)`:
the context value (string-coerced by `replace`) when defined, else the
matched text itself.
-/
def replaceVar (ctx : Ctx) (run : List Char) : List Char :=
  match ctxGet ctx (String.mk run) with
  | .undefined => '{' :: '{' :: (run ++ ['}', '}'])
  | v => (jsToString v).data

/-- State of the left-to-right scan for `\x7b\x7b(\w+)\x7d\x7d` matches:
nothing pending, a pending `{`, a pending `{{`+word-run, or a pending
`{{`+word-run+`}`. -/
inductive ScanState where
  | normal
  | oneBrace
  | inRun (run : List Char)
  | oneClose (run : List Char)
deriving Repr, DecidableEq

/-- One character of the global-replace scan: emitted output and next state.
Mirrors the regex engine's behaviour of retrying at the next position after a
failed partial match. When the pending text is exactly `\x7b\x7b` and the next
character is another `\x7b`, the retry position is the SECOND pending brace:
only the first brace is emitted and the pending text is again two braces
(the second pending brace plus the current one). In every other failure the
pending text has no interior `\x7b` — after the two openers come only word
characters and at most one `\x7d` — so no match can start inside it and it is
emitted literally, with only a breaking `\x7b` able to open a fresh match. -/
def interpStep (ctx : Ctx) : ScanState → Char → List Char × ScanState
  | .normal, c =>
    if c == '{' then ([], .oneBrace) else ([c], .normal)
  | .oneBrace, c =>
    if c == '{' then ([], .inRun []) else (['{', c], .normal)
  | .inRun run, c =>
    if isWordChar c then ([], .inRun (run ++ [c]))
    else if c == '}' then
      match run with
      | [] => (['{', '{', '}'], .normal)
      | _ :: _ => ([], .oneClose run)
    else if c == '{' then
      match run with
      | [] => (['{'], .inRun [])
      | _ :: _ => ('{' :: '{' :: run, .oneBrace)
    else ('{' :: '{' :: (run ++ [c]), .normal)
  | .oneClose run, c =>
    if c == '}' then (replaceVar ctx run, .normal)
    else if c == '{' then ('{' :: '{' :: (run ++ ['}']), .oneBrace)
    else ('{' :: '{' :: (run ++ ['}', c]), .normal)

/-- Literal text still pending when the input ends. -/
def flushScan : ScanState → List Char
  | .normal => []
  | .oneBrace => ['{']
  | .inRun run => '{' :: '{' :: run
  | .oneClose run => '{' :: '{' :: (run ++ ['}'])

/-- The global replace, character by character. -/
def interpChars (ctx : Ctx) (st : ScanState) : List Char → List Char
  | [] => flushScan st
  | c :: cs =>
    let p := interpStep ctx st c
    p.1 ++ interpChars ctx p.2 cs

/-- `value.replace(/\x7b\x7b(\w+)\x7d\x7d/g, cb)` on a whole string. -/
def interpString (ctx : Ctx) (s : String) : String :=
  String.mk (interpChars ctx .normal s.data)

mutual

/-- The per-entry dispatch inside `interpolateParams`'s loop: strings get the
regex replace, non-null objects (arrays included) recurse, everything else is
copied as-is. -/
def interpValue (ctx : Ctx) : JSValue → JSValue
  | .str s => .str (interpString ctx s)
  | .obj kvs => .obj (interpEntries ctx kvs)
  | .arr xs => .obj (interpArrEntries ctx 0 xs)
  | v => v

/-- The loop over `Object.entries(params)` for an object. -/
def interpEntries (ctx : Ctx) : List (String × JSValue) → List (String × JSValue)
  | [] => []
  | (k, v) :: rest => (k, interpValue ctx v) :: interpEntries ctx rest

/-- The loop over `Object.entries(params)` for an array: index-keyed entries,
so the recursion rebuilds the array as a plain object. -/
def interpArrEntries (ctx : Ctx) (i : Nat) : List JSValue → List (String × JSValue)
  | [] => []
  | v :: rest => (toString i, interpValue ctx v) :: interpArrEntries ctx (i + 1) rest

end

/-- `Object.entries` of a string: index-keyed single-character strings. -/
def strEntries (i : Nat) : List Char → List (String × JSValue)
  | [] => []
  | c :: rest => (toString i, .str (String.mk [c])) :: strEntries (i + 1) rest

/--
`interpolateParams(params, context)` of `references-store.js`: builds a fresh
object from `Object.entries(params)`, replacing placeholders in string values
and recursing into non-null object values. `Object.entries` of a number,
boolean, null or undefined is empty (the null/undefined cases would throw in
JS before the loop; `executeStep` models that throw itself and never reaches
this function with them).
-/
def interpolateParams (params : JSValue) (ctx : Ctx) : JSValue :=
  match params with
  | .obj kvs => .obj (interpEntries ctx kvs)
  | .arr xs => .obj (interpArrEntries ctx 0 xs)
  | .str s => .obj (interpEntries ctx (strEntries 0 s.data))
  | _ => .obj []

/-- Property access `v[k]` on a params object (`interpolateParams` always
produces an object, so the non-object cases are unreachable from
`executeStep`; on primitives JS would also yield `undefined`). -/
def propGet (v : JSValue) (k : String) : JSValue :=
  match v with
  | .obj entries => ctxGet entries k
  | _ => .undefined

/-- Decimal digit run of JS `StringToNumber` (integer fragment). -/
def parseDigits (cs : List Char) : Option Nat :=
  if cs ≠ [] ∧ cs.all (fun c => c.isDigit) then
    some (cs.foldl (fun n c => n * 10 + (c.toNat - 48)) 0)
  else none

/-- JS `StringToNumber`, restricted to the integer numerals this model uses
(whitespace-trimmed, optional sign; the empty string is 0; anything else,
including the fractional and hex forms the model does not need, is NaN). -/
def strToNumber (s : String) : Option Int :=
  match s.trim.data with
  | [] => some 0
  | '-' :: rest => (parseDigits rest).map (fun n => -(n : Int))
  | '+' :: rest => (parseDigits rest).map (fun n => (n : Int))
  | cs => (parseDigits cs).map (fun n => (n : Int))

/-- JS `ToNumber`, with `none` standing for NaN. A plain object coerces via
`"[object Object]"` (NaN); an array coerces via its joined string. -/
def toNumber : JSValue → Option Int
  | .undefined => none
  | .null => some 0
  | .bool b => some (cond b 1 0)
  | .num n => some n
  | .str s => strToNumber s
  | .obj _ => none
  | .arr xs => strToNumber (jsToString (.arr xs))

/-- JS strict equality `===` on this model. Objects and arrays compare by
reference in JS; the two operands of `evaluateCondition` come from the context
and from a freshly built interpolated params object, so they are never the
same reference and compare unequal. -/
def jsStrictEq : JSValue → JSValue → Bool
  | .undefined, .undefined => true
  | .null, .null => true
  | .bool a, .bool b => a == b
  | .num a, .num b => a == b
  | .str a, .str b => a == b
  | _, _ => false

/-- JS `a < b` (abstract relational comparison): both strings compare
lexicographically, otherwise both coerce with `ToNumber` and NaN makes the
comparison false. -/
def jsLess (a b : JSValue) : Bool :=
  match a, b with
  | .str s, .str t => s < t
  | _, _ =>
    match toNumber a, toNumber b with
    | some x, some y => x < y
    | _, _ => false

/-- JS `a > b` is the relational comparison with the operands swapped. -/
def jsGreater (a b : JSValue) : Bool :=
  jsLess b a

/-- `String(fieldValue).includes(value)`: `includes` string-coerces its
argument and tests substring containment. -/
def jsIncludes (s : String) (v : JSValue) : Bool :=
  decide ((jsToString v).data <:+: s.data)

/-- `fieldValue !== undefined && fieldValue !== null`. -/
def jsExistsCheck : JSValue → Bool
  | .undefined => false
  | .null => false
  | _ => true

/-- Outcome of one step execution: the awaited value, or a thrown error /
rejected promise carrying `error.message`. -/
inductive StepOutcome where
  | ok (result : JSValue)
  | err (msg : String)
deriving Repr

/--
`evaluateCondition(params, context)` of `references-store.js`: destructures
`{field, operator, value}`, looks the field up in the context (property keys
string-coerce, so a non-string `field` reads the key `String(field)`), and
switches on the operator, throwing for an unknown one.
-/
def evaluateCondition (params : JSValue) (context : Ctx) : StepOutcome :=
  let field := propGet params "field"
  let value := propGet params "value"
  let fieldValue := ctxGet context (jsToString field)
  match propGet params "operator" with
  | .str "equals" => .ok (.obj [("pass", .bool (jsStrictEq fieldValue value))])
  | .str "notEquals" => .ok (.obj [("pass", .bool (!jsStrictEq fieldValue value))])
  | .str "greaterThan" => .ok (.obj [("pass", .bool (jsGreater fieldValue value))])
  | .str "lessThan" => .ok (.obj [("pass", .bool (jsLess fieldValue value))])
  | .str "contains" => .ok (.obj [("pass", .bool (jsIncludes (jsToString fieldValue) value))])
  | .str "exists" => .ok (.obj [("pass", .bool (jsExistsCheck fieldValue))])
  | op => .err ("Unknown operator: " ++ jsToString op)

/-- Network/hub effects of the dispatchers, as oracles: each models the
`fetch`+`res.json()` round trip of one remote call (`.err` is a rejected
promise). -/
structure Services where
  observerFetch : String → JSValue → StepOutcome
  browserFetch : JSValue → StepOutcome
  claudeTeamStatus : StepOutcome
  sccFetch : String → JSValue → StepOutcome

/-- `executeObserverAction(action, params)`: four known actions hit the
Observer HTTP API; anything else throws. -/
def executeObserverAction (sv : Services) (action : JSValue) (params : JSValue) : StepOutcome :=
  match action with
  | .str "analyze" => sv.observerFetch "analyze" params
  | .str "getEvents" => sv.observerFetch "getEvents" params
  | .str "getReferences" => sv.observerFetch "getReferences" params
  | .str "storeEvent" => sv.observerFetch "storeEvent" params
  | a => .err ("Unknown observer action: " ++ jsToString a)

/-- `executeBrowserAction(action, params)`: posts a `BROWSER_COMMAND` envelope
to the Claude-Team webhook for any action whatsoever — it has no unknown-action
check. -/
def executeBrowserAction (sv : Services) (action : JSValue) (params : JSValue) : StepOutcome :=
  sv.browserFetch (.obj
    [("source", .str "orchestrator"),
     ("event", .obj
       [("type", .str "BROWSER_COMMAND"),
        ("action", action),
        ("params", params)])])

/-- `executeClaudeTeamAction(action, params)`: broadcast/askTeam return fixed
acknowledgement objects, getStatus hits the hub, anything else throws. -/
def executeClaudeTeamAction (sv : Services) (action : JSValue) (_params : JSValue) : StepOutcome :=
  match action with
  | .str "broadcast" => .ok (.obj [("broadcast", .bool true)])
  | .str "askTeam" => .ok (.obj [("asked", .bool true)])
  | .str "getStatus" => sv.claudeTeamStatus
  | a => .err ("Unknown claudeTeam action: " ++ jsToString a)

/-- `executeSccAction(action, params)`: two known actions, anything else
throws. -/
def executeSccAction (sv : Services) (action : JSValue) (params : JSValue) : StepOutcome :=
  match action with
  | .str "sendFeedback" => sv.sccFetch "sendFeedback" params
  | .str "getHealth" => sv.sccFetch "getHealth" params
  | a => .err ("Unknown scc action: " ++ jsToString a)

/-- A workflow step definition. `action` is absent (`undefined`) for
delay/condition steps, hence a `JSValue`; `optional` is the truthiness of the
`optional` property. -/
structure Step where
  name : String
  type : String
  action : JSValue
  params : JSValue
  optional : Bool

/-- The value `resolvedParams.ms || 1000` passed to `sleep` by the `delay`
branch: the raw `ms` when truthy, the default 1000 otherwise. The wall-clock
suspension itself is abstracted to this argument. -/
def sleptMs (resolvedParams : JSValue) : JSValue :=
  let ms := propGet resolvedParams "ms"
  if jsTruthy ms then ms else .num 1000

/--
`executeStep(step, context)`: interpolates the params (defaulted to `{}` when
absent; a `null` params throws inside `Object.entries` before any dispatch)
and routes on `step.type`, throwing for an unknown type. The `delay` branch
sleeps and then returns `{delayed: resolvedParams.ms}` — the raw, un-defaulted
`ms` property.
-/
def executeStep (sv : Services) (step : Step) (context : Ctx) : StepOutcome :=
  match (match step.params with | .undefined => JSValue.obj [] | p => p) with
  | .null => .err "Cannot convert undefined or null to object"
  | params =>
    let resolvedParams := interpolateParams params context
    match step.type with
    | "observer" => executeObserverAction sv step.action resolvedParams
    | "browser" => executeBrowserAction sv step.action resolvedParams
    | "claudeTeam" => executeClaudeTeamAction sv step.action resolvedParams
    | "scc" => executeSccAction sv step.action resolvedParams
    | "delay" => .ok (.obj [("delayed", propGet resolvedParams "ms")])
    | "condition" => evaluateCondition resolvedParams context
    | t => .err ("Unknown step type: " ++ t)

/-- One entry of a workflow run's `results` array: `{step, success, result}`
on success, `{step, success, error}` on failure. -/
structure StepResult where
  step : String
  success : Bool
  result : Option JSValue
  error : Option String
deriving Repr

/-- The structured value `executeWorkflow` returns: `context` is present only
on full success, `error` only on an early halt. -/
structure WorkflowResult where
  success : Bool
  completedSteps : Nat
  results : List StepResult
  error : Option String
  context : Option Ctx
deriving Repr

/-- `result[key] = value` for a JS object in insertion order: an existing key
keeps its position, a new key is appended. -/
def setKey : List (String × JSValue) → String → JSValue → List (String × JSValue)
  | [], k, v => [(k, v)]
  | (k₀, v₀) :: rest, k, v =>
    if k₀ = k then (k₀, v) :: rest else (k₀, v₀) :: setKey rest k v

/-- The spread merge `{...a, ...b}`: b's own enumerable entries written over a
in order, so later keys overwrite earlier ones. -/
def mergeEntries (a b : List (String × JSValue)) : List (String × JSValue) :=
  b.foldl (fun acc kv => setKey acc kv.1 kv.2) a

/-- Own enumerable entries of an array (its indices), as spread sees them. -/
def arrEntriesOf (i : Nat) : List JSValue → List (String × JSValue)
  | [] => []
  | v :: rest => (toString i, v) :: arrEntriesOf (i + 1) rest

/-- `if (result && typeof result === 'object') currentContext =
{...currentContext, ...result}`: truthy objects and arrays merge, everything
else leaves the context unchanged. -/
def mergeResult (ctx : Ctx) (result : JSValue) : Ctx :=
  match result with
  | .obj entries => mergeEntries ctx entries
  | .arr elems => mergeEntries ctx (arrEntriesOf 0 elems)
  | _ => ctx

/-- The whole of one step attempt, abstracted over the step index, the step
and the live context — instantiated with `executeStep` over concrete
`Services` by `execViaServices`. -/
abbrev StepExec := Nat → Step → Ctx → StepOutcome

/-- Loop state of `executeWorkflow`: the 0-based index of the next step, the
live context, and the `results` accumulated so far. -/
structure RunningState where
  i : Nat
  ctx : Ctx
  acc : List StepResult
deriving Repr

/-- A run is either still in the loop or has taken the early `return` of a
non-optional failure. -/
inductive RunState where
  | running (s : RunningState)
  | halted (r : WorkflowResult)
deriving Repr

/-- One iteration of the `for` loop of `executeWorkflow`, with the list of
step indices at which the step executor was invoked carried alongside (the
halted state is absorbing: after the early return nothing further runs). -/
def stepOnce (exec : StepExec) : RunState × List Nat → Step → RunState × List Nat
  | (.halted r, tr), _ => (.halted r, tr)
  | (.running s, tr), step =>
    let tr := tr ++ [s.i]
    match exec s.i step s.ctx with
    | .ok result =>
      (.running ⟨s.i + 1, mergeResult s.ctx result,
        s.acc ++ [⟨step.name, true, some result, none⟩]⟩, tr)
    | .err msg =>
      let acc := s.acc ++ [⟨step.name, false, none, some msg⟩]
      if step.optional then (.running ⟨s.i + 1, s.ctx, acc⟩, tr)
      else (.halted ⟨false, s.i, acc,
        some ("Workflow stopped at step: " ++ step.name), none⟩, tr)

/-- The `for` loop over all steps. -/
def runFold (exec : StepExec) (steps : List Step) (init : RunState × List Nat) :
    RunState × List Nat :=
  steps.foldl (stepOnce exec) init

/-- A workflow definition; `steps` is `none` when the property is absent. -/
structure Workflow where
  name : String
  steps : Option (List Step)
  context : Ctx

/--
`executeWorkflow(workflow)` with the executor-invocation trace attached.
A missing `steps` array throws (`steps.length` on `undefined`) before
anything runs; otherwise the loop yields either the early-halt result or
`{success: true, completedSteps: steps.length, results, context}`.
-/
def executeWorkflowT (exec : StepExec) (w : Workflow) :
    Except String (WorkflowResult × List Nat) :=
  match w.steps with
  | none => .error "TypeError: Cannot read properties of undefined (reading length)"
  | some steps =>
    match runFold exec steps (.running ⟨0, w.context, []⟩, []) with
    | (.running s, tr) => .ok (⟨true, steps.length, s.acc, none, some s.ctx⟩, tr)
    | (.halted r, tr) => .ok (r, tr)

/-- `executeWorkflow(workflow)` itself (the trace projected away). -/
def executeWorkflow (exec : StepExec) (w : Workflow) : Except String WorkflowResult :=
  (executeWorkflowT exec w).map Prod.fst

/-- The concrete step executor: `executeStep` over given services (the loop
body passes the step and the live context; the index is unused by the real
executor). -/
def execViaServices (sv : Services) : StepExec :=
  fun _ step ctx => executeStep sv step ctx

/-- The execution context as merged through a list of steps: each successful
object-shaped result is spread in, failures merge nothing. This is the
reference value against which the engine's final `context` is checked. -/
def finalContext (exec : StepExec) : List Step → Nat → Ctx → Ctx
  | [], _, ctx => ctx
  | st :: rest, i, ctx =>
    match exec i st ctx with
    | .ok result => finalContext exec rest (i + 1) (mergeResult ctx result)
    | .err _ => finalContext exec rest (i + 1) ctx

/-! ### Concrete runs used to instantiate and refute the claims -/

/-- A services oracle with every remote call failing (network down). -/
def offlineServices : Services :=
  ⟨fun _ _ => .err "offline", fun _ => .err "offline", .err "offline",
   fun _ _ => .err "offline"⟩

/-- A claudeTeam broadcast step: succeeds under any services. -/
def broadcastStep (nm : String) : Step :=
  ⟨nm, "claudeTeam", .str "broadcast", .obj [], false⟩

/-- A bare step for runs driven by an index-keyed executor. -/
def plainStep (nm : String) (opt : Bool) : Step :=
  ⟨nm, "test", .undefined, .obj [], opt⟩

/-- Executor for which exactly the step at index 1 (1-based position 2)
fails. -/
def failAt1Exec : StepExec :=
  fun i _ _ => if i = 1 then .err "boom" else .ok (.obj [])

/-- Three steps, none optional: under `failAt1Exec` the run halts at step 2. -/
def haltWf : Workflow :=
  ⟨"w", some [plainStep "s1" false, plainStep "s2" false, plainStep "s3" false], []⟩

/-- Three steps with the middle one optional: under `failAt1Exec` the run
continues past the failure. -/
def optWf : Workflow :=
  ⟨"w", some [plainStep "s1" false, plainStep "s2" true, plainStep "s3" false], []⟩

/-- An unknown step type marked optional, followed by a broadcast step. -/
def bogusOptWf : Workflow :=
  ⟨"w", some [⟨"s1", "bogus", .undefined, .obj [], true⟩, broadcastStep "s2"], []⟩

/-- A workflow whose `steps` array is empty. -/
def emptyWf : Workflow :=
  ⟨"w", some [], [("k", .num 1)]⟩

/-- Executor producing `{x: 1}` then `{x: 2}`, then echoing the interpolated
params of later steps (to observe what interpolation sees). -/
def mergeProbeExec : StepExec :=
  fun i step ctx =>
    if i = 0 then .ok (.obj [("x", .num 1)])
    else if i = 1 then .ok (.obj [("x", .num 2)])
    else .ok (interpolateParams step.params ctx)

/-- A step whose params interpolate the placeholder for the context key x. -/
def probeStep (nm : String) : Step :=
  ⟨nm, "test", .undefined, .obj [("probe", .str "{{x}}")], false⟩

/-- Steps A and B write x, step C interpolates it. -/
def mergeWf : Workflow :=
  ⟨"w", some [probeStep "A", probeStep "B", probeStep "C"], []⟩

/-- A delay step with no `ms` parameter. -/
def bareDelayStep : Step :=
  ⟨"d", "delay", .undefined, .obj [], false⟩

/-! ### Loop lemmas -/

/-- The early `return` is absorbing: once halted, no further iteration runs. -/
theorem runFold_halted (exec : StepExec) (steps : List Step) (r : WorkflowResult)
    (tr : List Nat) : runFold exec steps (.halted r, tr) = (.halted r, tr) := by
  induction steps with
  | nil => rfl
  | cons st rest ih => simpa [runFold, stepOnce] using ih

/-- Splitting the loop over an append of step lists. -/
theorem runFold_append (exec : StepExec) (a b : List Step) (init : RunState × List Nat) :
    runFold exec (a ++ b) init = runFold exec b (runFold exec a init) :=
  List.foldl_append _ _ _ _

/-- `runFold_halted` with the loop exposed as its underlying fold. -/
theorem foldl_halted_eq (exec : StepExec) (steps : List Step) (r : WorkflowResult)
    (tr : List Nat) : List.foldl (stepOnce exec) (.halted r, tr) steps = (.halted r, tr) :=
  runFold_halted exec steps r tr

/-- The loop body when the step executor succeeds. -/
theorem stepOnce_ok (exec : StepExec) (s : RunningState) (tr : List Nat) (step : Step)
    (result : JSValue) (hex : exec s.i step s.ctx = .ok result) :
    stepOnce exec (.running s, tr) step =
      (.running ⟨s.i + 1, mergeResult s.ctx result,
        s.acc ++ [⟨step.name, true, some result, none⟩]⟩, tr ++ [s.i]) := by
  simp [stepOnce, hex]

/-- The loop body when the step executor fails on an optional step. -/
theorem stepOnce_err_opt (exec : StepExec) (s : RunningState) (tr : List Nat) (step : Step)
    (msg : String) (hex : exec s.i step s.ctx = .err msg) (hopt : step.optional = true) :
    stepOnce exec (.running s, tr) step =
      (.running ⟨s.i + 1, s.ctx, s.acc ++ [⟨step.name, false, none, some msg⟩]⟩,
        tr ++ [s.i]) := by
  simp [stepOnce, hex, hopt]

/-- The loop body when the step executor fails on a non-optional step: the
early return. -/
theorem stepOnce_err_halt (exec : StepExec) (s : RunningState) (tr : List Nat) (step : Step)
    (msg : String) (hex : exec s.i step s.ctx = .err msg) (hopt : step.optional = false) :
    stepOnce exec (.running s, tr) step =
      (.halted ⟨false, s.i, s.acc ++ [⟨step.name, false, none, some msg⟩],
        some ("Workflow stopped at step: " ++ step.name), none⟩, tr ++ [s.i]) := by
  simp [stepOnce, hex, hopt]

/-- If the loop runs to completion, every step was attempted: the final index
advanced by one per step, one result was appended per step, and the executor
was invoked exactly at the consecutive indices starting at the initial one. -/
theorem runFold_running_spec (exec : StepExec) :
    ∀ (steps : List Step) (i₀ : Nat) (ctx₀ : Ctx) (acc₀ : List StepResult)
      (tr₀ : List Nat) (s : RunningState) (tr : List Nat),
      runFold exec steps (.running ⟨i₀, ctx₀, acc₀⟩, tr₀) = (.running s, tr) →
      s.i = i₀ + steps.length ∧ s.acc.length = acc₀.length + steps.length ∧
        tr = tr₀ ++ List.range' i₀ steps.length := by
  intro steps
  induction steps with
  | nil =>
    intro i₀ ctx₀ acc₀ tr₀ s tr h
    simp only [runFold, List.foldl_nil, Prod.mk.injEq, RunState.running.injEq] at h
    obtain ⟨rfl, rfl⟩ := h
    simp
  | cons st rest ih =>
    intro i₀ ctx₀ acc₀ tr₀ s tr h
    rw [runFold, List.foldl_cons] at h
    cases hex : exec i₀ st ctx₀ with
    | ok result =>
      rw [stepOnce_ok exec ⟨i₀, ctx₀, acc₀⟩ tr₀ st result hex] at h
      obtain ⟨h1, h2, h3⟩ := ih (i₀ + 1) _ _ _ s tr h
      simp only [List.length_append, List.length_cons, List.length_nil] at h2
      refine ⟨by simp [List.length_cons]; omega, by simp [List.length_cons]; omega, ?_⟩
      rw [h3]
      simp [List.length_cons, List.range'_succ]
    | err msg =>
      by_cases hopt : st.optional
      · rw [stepOnce_err_opt exec ⟨i₀, ctx₀, acc₀⟩ tr₀ st msg hex hopt] at h
        obtain ⟨h1, h2, h3⟩ := ih (i₀ + 1) _ _ _ s tr h
        simp only [List.length_append, List.length_cons, List.length_nil] at h2
        refine ⟨by simp [List.length_cons]; omega, by simp [List.length_cons]; omega, ?_⟩
        rw [h3]
        simp [List.length_cons, List.range'_succ]
      · rw [stepOnce_err_halt exec ⟨i₀, ctx₀, acc₀⟩ tr₀ st msg hex
          (Bool.not_eq_true _ ▸ hopt), foldl_halted_eq] at h
        exact absurd (congrArg Prod.fst h) (by simp)

/-- If the loop halts early, it did so at the first non-optional failure, say
the step at 0-based index `k`: the result is the early-return record built
from that step (success `false`, `completedSteps` the failing step's index,
one result per attempted step — the failed one included — and the stop
message naming the failing step), and the executor was invoked exactly at
indices up to and including `k`. -/
theorem runFold_halted_spec (exec : StepExec) :
    ∀ (steps : List Step) (i₀ : Nat) (ctx₀ : Ctx) (acc₀ : List StepResult)
      (tr₀ : List Nat) (r : WorkflowResult) (tr : List Nat),
      runFold exec steps (.running ⟨i₀, ctx₀, acc₀⟩, tr₀) = (.halted r, tr) →
      ∃ k st, steps[k]? = some st ∧ st.optional = false ∧
        r.success = false ∧ r.completedSteps = i₀ + k ∧
        r.results.length = acc₀.length + k + 1 ∧
        r.error = some ("Workflow stopped at step: " ++ st.name) ∧
        r.context = none ∧ tr = tr₀ ++ List.range' i₀ (k + 1) := by
  intro steps
  induction steps with
  | nil =>
    intro i₀ ctx₀ acc₀ tr₀ r tr h
    simp only [runFold, List.foldl_nil, Prod.mk.injEq] at h
    exact absurd h.1 (by simp)
  | cons st rest ih =>
    intro i₀ ctx₀ acc₀ tr₀ r tr h
    rw [runFold, List.foldl_cons] at h
    cases hex : exec i₀ st ctx₀ with
    | ok result =>
      rw [stepOnce_ok exec ⟨i₀, ctx₀, acc₀⟩ tr₀ st result hex] at h
      obtain ⟨k, st', hk, hopt, hsucc, hcomp, hlen, herr, hctx, htr⟩ :=
        ih (i₀ + 1) _ _ _ r tr h
      refine ⟨k + 1, st', by simpa using hk, hopt, hsucc, by omega, ?_, herr, hctx, ?_⟩
      · simp only [List.length_append, List.length_cons, List.length_nil] at hlen
        omega
      · rw [htr]
        simp [List.range'_succ]
    | err msg =>
      by_cases hoptb : st.optional
      · rw [stepOnce_err_opt exec ⟨i₀, ctx₀, acc₀⟩ tr₀ st msg hex hoptb] at h
        obtain ⟨k, st', hk, hopt, hsucc, hcomp, hlen, herr, hctx, htr⟩ :=
          ih (i₀ + 1) _ _ _ r tr h
        refine ⟨k + 1, st', by simpa using hk, hopt, hsucc, by omega, ?_, herr, hctx, ?_⟩
        · simp only [List.length_append, List.length_cons, List.length_nil] at hlen
          omega
        · rw [htr]
          simp [List.range'_succ]
      · rw [stepOnce_err_halt exec ⟨i₀, ctx₀, acc₀⟩ tr₀ st msg hex
          (Bool.not_eq_true _ ▸ hoptb), foldl_halted_eq] at h
        simp only [Prod.mk.injEq, RunState.halted.injEq] at h
        obtain ⟨rfl, rfl⟩ := h
        exact ⟨0, st, by simp, Bool.not_eq_true _ ▸ hoptb, rfl, by simp, by simp, rfl, rfl,
          by simp⟩

/-- If every failing step is optional, the loop never halts: it attempts all
steps, ends with the context merged through every successful result, and
appends one result per step. -/
theorem runFold_all_opt_spec (exec : StepExec) :
    ∀ (steps : List Step) (i₀ : Nat) (ctx₀ : Ctx) (acc₀ : List StepResult)
      (tr₀ : List Nat),
      (∀ k st ctx msg, steps[k]? = some st → exec (i₀ + k) st ctx = .err msg →
        st.optional = true) →
      ∃ acc, runFold exec steps (.running ⟨i₀, ctx₀, acc₀⟩, tr₀) =
          (.running ⟨i₀ + steps.length, finalContext exec steps i₀ ctx₀, acc⟩,
            tr₀ ++ List.range' i₀ steps.length) ∧
        acc.length = acc₀.length + steps.length := by
  intro steps
  induction steps with
  | nil =>
    intro i₀ ctx₀ acc₀ tr₀ _
    exact ⟨acc₀, by simp [runFold, finalContext], by simp⟩
  | cons st rest ih =>
    intro i₀ ctx₀ acc₀ tr₀ hall
    have hall' : ∀ k st' ctx msg, rest[k]? = some st' →
        exec (i₀ + 1 + k) st' ctx = .err msg → st'.optional = true := by
      intro k st' ctx msg hk hx
      exact hall (k + 1) st' ctx msg (by simpa using hk)
        (by rw [show i₀ + (k + 1) = i₀ + 1 + k by omega]; exact hx)
    rw [runFold, List.foldl_cons]
    cases hex : exec i₀ st ctx₀ with
    | ok result =>
      rw [stepOnce_ok exec ⟨i₀, ctx₀, acc₀⟩ tr₀ st result hex]
      obtain ⟨acc, hrun, hlen⟩ := ih (i₀ + 1) (mergeResult ctx₀ result) _ (tr₀ ++ [i₀]) hall'
      rw [runFold] at hrun
      refine ⟨acc, ?_, ?_⟩
      · rw [hrun]
        have hfc : finalContext exec (st :: rest) i₀ ctx₀ =
            finalContext exec rest (i₀ + 1) (mergeResult ctx₀ result) := by
          simp [finalContext, hex]
        rw [hfc]
        simp [List.range'_succ, List.length_cons]
        omega
      · simp only [List.length_append, List.length_cons, List.length_nil] at hlen
        simp [List.length_cons]
        omega
    | err msg =>
      have hopt : st.optional = true :=
        hall 0 st ctx₀ msg (by simp) (by simpa using hex)
      rw [stepOnce_err_opt exec ⟨i₀, ctx₀, acc₀⟩ tr₀ st msg hex hopt]
      obtain ⟨acc, hrun, hlen⟩ := ih (i₀ + 1) ctx₀ _ (tr₀ ++ [i₀]) hall'
      rw [runFold] at hrun
      refine ⟨acc, ?_, ?_⟩
      · rw [hrun]
        have hfc : finalContext exec (st :: rest) i₀ ctx₀ =
            finalContext exec rest (i₀ + 1) ctx₀ := by
          simp [finalContext, hex]
        rw [hfc]
        simp [List.range'_succ, List.length_cons]
        omega
      · simp only [List.length_append, List.length_cons, List.length_nil] at hlen
        simp [List.length_cons]
        omega

/-! ### Interpolation scanner lemmas -/

/-- One-step unfolding of the scan. -/
theorem interpChars_cons (ctx : Ctx) (st : ScanState) (c : Char) (cs : List Char) :
    interpChars ctx st (c :: cs) =
      (interpStep ctx st c).1 ++ interpChars ctx (interpStep ctx st c).2 cs := rfl

/-- Feeding a run of word characters extends the pending run. -/
theorem interpChars_word_run (ctx : Ctx) :
    ∀ (name run cs : List Char), (∀ c ∈ name, isWordChar c = true) →
      interpChars ctx (.inRun run) (name ++ cs) =
        interpChars ctx (.inRun (run ++ name)) cs := by
  intro name
  induction name with
  | nil => intro run cs _; simp
  | cons c name ih =>
    intro run cs hw
    have hc : isWordChar c = true := hw c (by simp)
    have hstep : interpStep ctx (.inRun run) c = ([], .inRun (run ++ [c])) := by
      simp [interpStep, hc]
    rw [List.cons_append, interpChars_cons, hstep]
    simp only [List.nil_append]
    rw [ih (run ++ [c]) cs (fun d hd => hw d (by simp [hd]))]
    simp [List.append_assoc]

/-- A complete placeholder `{{name}}` at the head of the input is
replaced according to the context, and scanning resumes right after it. -/
theorem interpChars_token (ctx : Ctx) (name rest : List Char) (hne : name ≠ [])
    (hw : ∀ c ∈ name, isWordChar c = true) :
    interpChars ctx .normal ('{' :: '{' :: (name ++ '}' :: '}' :: rest)) =
      replaceVar ctx name ++ interpChars ctx .normal rest := by
  obtain ⟨c, cs, rfl⟩ := List.exists_cons_of_ne_nil hne
  rw [interpChars_cons, show interpStep ctx .normal '{' = ([], ScanState.oneBrace) from rfl]
  simp only [List.nil_append]
  rw [interpChars_cons, show interpStep ctx .oneBrace '{' = ([], ScanState.inRun []) from rfl]
  simp only [List.nil_append]
  rw [interpChars_word_run ctx (c :: cs) [] ('}' :: '}' :: rest) hw]
  simp only [List.nil_append]
  rw [interpChars_cons,
    show interpStep ctx (.inRun (c :: cs)) '}' = ([], ScanState.oneClose (c :: cs)) from rfl]
  simp only [List.nil_append]
  rw [interpChars_cons,
    show interpStep ctx (.oneClose (c :: cs)) '}' =
      (replaceVar ctx (c :: cs), ScanState.normal) from rfl]

/-- A character other than an opening brace passes through untouched. -/
theorem interpChars_plain (ctx : Ctx) (c : Char) (cs : List Char)
    (h : (c == '{') = false) :
    interpChars ctx .normal (c :: cs) = c :: interpChars ctx .normal cs := by
  rw [interpChars_cons, show interpStep ctx .normal c = ([c], .normal) by
    simp [interpStep, h]]
  simp

/-! ### Context merge lemmas -/

/-- Looking a key up after a single write. -/
theorem lookup_setKey (k k' : String) (v : JSValue) :
    ∀ l : List (String × JSValue),
      List.lookup k' (setKey l k v) = if k' = k then some v else List.lookup k' l := by
  intro l
  induction l with
  | nil =>
    by_cases h : k' = k
    · simp [setKey, List.lookup_cons, h]
    · simp [setKey, List.lookup_cons, h, beq_eq_false_iff_ne.mpr h]
  | cons kv rest ih =>
    obtain ⟨k₀, v₀⟩ := kv
    by_cases h1 : k₀ = k
    · subst h1
      by_cases h2 : k' = k₀
      · simp [setKey, List.lookup_cons, h2]
      · simp [setKey, List.lookup_cons, h2, beq_eq_false_iff_ne.mpr h2]
    · by_cases h2 : k' = k₀
      · subst h2
        simp [setKey, h1, List.lookup_cons, Ne.symm h1]
      · simp [setKey, h1, List.lookup_cons, h2, beq_eq_false_iff_ne.mpr h2, ih]

/-- The spread merge, looked up one key at a time: the value is the one at
the LAST occurrence of the key among the merged-in entries (later keys
overwrite earlier ones), and the original context value when the key does not
occur among them. -/
theorem ctxGet_mergeEntries (k : String) :
    ∀ (b a : Ctx), ctxGet (mergeEntries a b) k =
      match List.lookup k b.reverse with
      | some v => v
      | none => ctxGet a k := by
  intro b
  induction b with
  | nil => intro a; simp [mergeEntries]
  | cons kv rest ih =>
    intro a
    obtain ⟨k₀, v₀⟩ := kv
    have hme : mergeEntries a ((k₀, v₀) :: rest) = mergeEntries (setKey a k₀ v₀) rest := rfl
    rw [hme, ih (setKey a k₀ v₀)]
    rw [show ((k₀, v₀) :: rest).reverse = rest.reverse ++ [(k₀, v₀)] by simp]
    rw [List.lookup_append]
    cases hrev : List.lookup k rest.reverse with
    | some v => simp [Option.or]
    | none =>
      simp only [Option.or]
      by_cases hk : k = k₀
      · subst hk
        simp [ctxGet, lookup_setKey, List.lookup_cons]
      · simp [ctxGet, lookup_setKey, hk, List.lookup_cons, beq_eq_false_iff_ne.mpr hk]

/-! ### Engine dispatch helpers -/

/-- `executeWorkflowT` when the steps array is present. -/
theorem executeWorkflowT_some (exec : StepExec) (w : Workflow) (steps : List Step)
    (hsteps : w.steps = some steps) :
    executeWorkflowT exec w =
      match runFold exec steps (.running ⟨0, w.context, []⟩, []) with
      | (.running s, tr) => .ok (⟨true, steps.length, s.acc, none, some s.ctx⟩, tr)
      | (.halted r, tr) => .ok (r, tr) := by
  unfold executeWorkflowT
  rw [hsteps]

/-- Peeling one step off the loop. -/
theorem runFold_cons (exec : StepExec) (st : Step) (rest : List Step)
    (init : RunState × List Nat) :
    runFold exec (st :: rest) init = runFold exec rest (stepOnce exec init st) := rfl

/-! ### The claims -/

/--
**C1** (amended): if the steps strictly before 1-based position `k` run
without halting and the step at position `k` (`pre.length = k - 1` steps
before it) fails while not marked optional, then `executeWorkflow` returns
immediately with `success == false`, a results list of length `k` (one
`StepResult` per attempted step, the failed one included),
`completedSteps == k - 1` — the number of steps that completed before the
failure, not `k` as the claim stated — an error of the form
`"Workflow stopped at step: <name>"`, and the step executor invoked exactly
at 0-based indices `0, …, k-1`: no dispatcher ever runs for a step after
position `k`.
-/
theorem C1_nonoptional_failure_halts (exec : StepExec) (w : Workflow)
    (pre : List Step) (st : Step) (post : List Step) (s : RunningState)
    (tr : List Nat) (msg : String)
    (hsteps : w.steps = some (pre ++ st :: post))
    (hrun : runFold exec pre (.running ⟨0, w.context, []⟩, []) = (.running s, tr))
    (hfail : exec s.i st s.ctx = .err msg)
    (hopt : st.optional = false) :
    executeWorkflowT exec w =
      .ok (⟨false, pre.length, s.acc ++ [⟨st.name, false, none, some msg⟩],
            some ("Workflow stopped at step: " ++ st.name), none⟩,
        List.range' 0 (pre.length + 1)) ∧
    (s.acc ++ [(⟨st.name, false, none, some msg⟩ : StepResult)]).length = pre.length + 1 := by
  obtain ⟨hi, hlen, htr⟩ := runFold_running_spec exec pre 0 w.context [] [] s tr hrun
  simp only [List.length_nil, Nat.zero_add] at hi hlen
  simp only [List.nil_append] at htr
  constructor
  · rw [executeWorkflowT_some exec w _ hsteps, runFold_append, hrun, runFold_cons,
      stepOnce_err_halt exec s tr st msg hfail hopt, runFold_halted]
    dsimp only
    rw [hi, htr]
    simp [List.range'_1_concat]
  · simp [hlen]

/-- **C1**, the claim as stated is false: for the 3-step workflow whose second
step fails non-optionally, the run yields `results.length == 2` but
`completedSteps == 1`, not the claimed `2`. -/
theorem C1_counterexample :
    executeWorkflow failAt1Exec haltWf =
      .ok ⟨false, 1, [⟨"s1", true, some (.obj []), none⟩, ⟨"s2", false, none, some "boom"⟩],
        some "Workflow stopped at step: s2", none⟩ ∧ (1 : Nat) ≠ 2 :=
  ⟨rfl, by decide⟩

/-- **C1** witness: the amended theorem applied to the concrete 3-step run
halting at step 2. -/
theorem C1_witness :
    executeWorkflowT failAt1Exec haltWf =
      .ok (⟨false, 1, [⟨"s1", true, some (.obj []), none⟩, ⟨"s2", false, none, some "boom"⟩],
        some "Workflow stopped at step: s2", none⟩, [0, 1]) ∧
    ([(⟨"s1", true, some (.obj []), none⟩ : StepResult)] ++
      [(⟨"s2", false, none, some "boom"⟩ : StepResult)]).length = 1 + 1 :=
  C1_nonoptional_failure_halts failAt1Exec haltWf [plainStep "s1" false]
    (plainStep "s2" false) [plainStep "s3" false]
    (⟨1, [], [⟨"s1", true, some (.obj []), none⟩]⟩ : RunningState) [0] "boom" rfl rfl rfl rfl

/-- The halted result of the concrete 3-step run used by several witnesses. -/
def haltResult : WorkflowResult :=
  ⟨false, 1, [⟨"s1", true, some (.obj []), none⟩, ⟨"s2", false, none, some "boom"⟩],
    some "Workflow stopped at step: s2", none⟩

/--
**C2** (amended): in every run, exactly one `StepResult` is appended per step
attempted, in execution order (the executor-invocation trace is exactly
`0, 1, …, results.length - 1`); the engine never attempts a step after a
non-optional failure; and whenever the run halts early,
`completedSteps` plus the number of unattempted steps equals the total number
of steps **minus one** — the attempted-but-failed step is counted by neither —
not the total itself as the claim stated.
-/
theorem C2_run_invariant (exec : StepExec) (w : Workflow) (steps : List Step)
    (r : WorkflowResult) (tr : List Nat)
    (hsteps : w.steps = some steps)
    (hrun : executeWorkflowT exec w = .ok (r, tr)) :
    r.results.length = tr.length ∧ tr = List.range' 0 r.results.length ∧
    (r.success = true → r.results.length = steps.length ∧
      r.completedSteps = steps.length) ∧
    (r.success = false →
      r.results.length = r.completedSteps + 1 ∧ r.results.length ≤ steps.length ∧
      r.completedSteps + (steps.length - r.results.length) = steps.length - 1) := by
  rw [executeWorkflowT_some exec w steps hsteps] at hrun
  cases hfold : runFold exec steps (.running ⟨0, w.context, []⟩, []) with
  | mk rs tr' =>
    rw [hfold] at hrun
    cases rs with
    | running s =>
      obtain ⟨hi, hlen, htr⟩ := runFold_running_spec exec steps 0 w.context [] [] s tr' hfold
      simp only [List.length_nil, Nat.zero_add] at hi hlen
      simp only [List.nil_append] at htr
      simp only [Except.ok.injEq, Prod.mk.injEq] at hrun
      obtain ⟨rfl, rfl⟩ := hrun
      refine ⟨by simp [hlen, htr], by simp [hlen, htr], by simp [hlen], by simp⟩
    | halted hr =>
      obtain ⟨k, st, hk, hopt, hsucc, hcomp, hlen, herr, hctx, htr⟩ :=
        runFold_halted_spec exec steps 0 w.context [] [] hr tr' hfold
      simp only [List.length_nil, Nat.zero_add] at hcomp hlen
      simp only [List.nil_append] at htr
      simp only [Except.ok.injEq, Prod.mk.injEq] at hrun
      obtain ⟨rfl, rfl⟩ := hrun
      have hklt : k < steps.length := by
        rcases List.getElem?_eq_some_iff.mp hk with ⟨hlt, _⟩
        exact hlt
      refine ⟨by simp [hlen, htr], ?_, ?_, ?_⟩
      · rw [htr, hlen]
      · intro h
        rw [hsucc] at h
        exact absurd h (by simp)
      · intro _
        exact ⟨by omega, by omega, by omega⟩

/-- **C2**, the third conjunct of the claim as stated is false: the halted
3-step run has `completedSteps == 1` and one unattempted step, and
`1 + 1 = 2 ≠ 3`. -/
theorem C2_counterexample :
    executeWorkflow failAt1Exec haltWf = .ok haltResult ∧
    haltResult.completedSteps + (3 - haltResult.results.length) ≠ 3 :=
  ⟨rfl, by decide⟩

/-- **C2** witness: the amended invariant applied to the concrete halted
3-step run. -/
theorem C2_witness :
    haltResult.results.length = ([0, 1] : List Nat).length ∧
    ([0, 1] : List Nat) = List.range' 0 haltResult.results.length ∧
    (haltResult.success = true → haltResult.results.length = 3 ∧
      haltResult.completedSteps = 3) ∧
    (haltResult.success = false →
      haltResult.results.length = haltResult.completedSteps + 1 ∧
      haltResult.results.length ≤ 3 ∧
      haltResult.completedSteps + (3 - haltResult.results.length) = 3 - 1) :=
  C2_run_invariant failAt1Exec haltWf _ haltResult [0, 1] rfl rfl

/--
**C3** (confirmed): if every step of the workflow either succeeds or is
marked `optional: true` whenever it fails, the engine attempts all steps and
returns `{success: true, completedSteps: steps.length, results}` with one
`StepResult` per step and `context` equal to the execution context merged
through every successful step result.
-/
theorem C3_optional_continuation (exec : StepExec) (w : Workflow) (steps : List Step)
    (hsteps : w.steps = some steps)
    (hall : ∀ k st ctx msg, steps[k]? = some st → exec k st ctx = .err msg →
      st.optional = true) :
    ∃ acc, executeWorkflowT exec w =
        .ok (⟨true, steps.length, acc, none, some (finalContext exec steps 0 w.context)⟩,
          List.range' 0 steps.length) ∧
      acc.length = steps.length := by
  have hall0 : ∀ k st ctx msg, steps[k]? = some st → exec (0 + k) st ctx = .err msg →
      st.optional = true := by
    intro k st ctx msg hk hx
    exact hall k st ctx msg hk (by rwa [Nat.zero_add] at hx)
  obtain ⟨acc, hrun, hlen⟩ := runFold_all_opt_spec exec steps 0 w.context [] [] hall0
  refine ⟨acc, ?_, by simpa using hlen⟩
  rw [executeWorkflowT_some exec w steps hsteps, hrun]
  dsimp only
  simp

/-- **C3** witness: under the indexed executor failing only at index 1, the
3-step workflow whose middle step is optional attempts all three steps and
succeeds. -/
theorem C3_witness :
    ∃ acc, executeWorkflowT failAt1Exec optWf =
        .ok (⟨true, 3, acc, none, some []⟩, [0, 1, 2]) ∧ acc.length = 3 :=
  C3_optional_continuation failAt1Exec optWf _ rfl (by
    intro k st ctx msg hk hx
    match k with
    | 0 => simp [failAt1Exec] at hx
    | 1 =>
      simp [optWf] at hk
      rw [← hk]
      rfl
    | 2 => simp [failAt1Exec] at hx
    | n + 3 => simp [optWf] at hk)

/--
**C7** (amended): `executeWorkflow` never throws for step-level failures —
whenever the `steps` array is present, the caller receives a structured
`WorkflowResult` (halted or not); a missing `steps` array throws immediately
with no partial result. An **empty** `steps` array, however, is not rejected:
the engine returns immediately with a successful zero-step result carrying
the initial context.
-/
theorem C7_propagation :
    (∀ (exec : StepExec) (w : Workflow) (steps : List Step), w.steps = some steps →
      ∃ r tr, executeWorkflowT exec w = .ok (r, tr)) ∧
    (∀ (exec : StepExec) (w : Workflow), w.steps = none →
      executeWorkflowT exec w =
        .error "TypeError: Cannot read properties of undefined (reading length)") ∧
    (∀ (exec : StepExec) (name : String) (ctx : Ctx),
      executeWorkflowT exec ⟨name, some [], ctx⟩ =
        .ok (⟨true, 0, [], none, some ctx⟩, [])) := by
  refine ⟨?_, ?_, ?_⟩
  · intro exec w steps hsteps
    rw [executeWorkflowT_some exec w steps hsteps]
    cases hfold : runFold exec steps (.running ⟨0, w.context, []⟩, []) with
    | mk rs tr =>
      cases rs with
      | running s => exact ⟨_, tr, rfl⟩
      | halted r => exact ⟨r, tr, rfl⟩
  · intro exec w h
    unfold executeWorkflowT
    rw [h]
  · intro exec name ctx
    rfl

/-- **C7**, the empty-steps part of the claim as stated is false: a workflow
with an empty steps array is not rejected — it yields a successful result
with zero completed steps and the initial context. -/
theorem C7_counterexample :
    executeWorkflow (execViaServices offlineServices) emptyWf =
      .ok ⟨true, 0, [], none, some [("k", .num 1)]⟩ ∧
    (⟨true, 0, [], none, some [("k", JSValue.num 1)]⟩ : WorkflowResult).success = true :=
  ⟨rfl, rfl⟩

/-- **C7** witness: the never-throws part applied to the halting 3-step run:
even a halted run is delivered as a structured result. -/
theorem C7_witness :
    ∃ r tr, executeWorkflowT failAt1Exec haltWf = .ok (r, tr) :=
  C7_propagation.1 failAt1Exec haltWf _ rfl

/--
**C4** (amended): configuration errors — an unknown step type, an unknown
action within the observer, claudeTeam or scc dispatchers (the browser
dispatcher forwards any action without an unknown-action check), or an
unknown condition operator — surface as step failures naming the problem and
halt the workflow when the failing step is not optional; contrary to the
claim, a step marked `optional: true` swallows them like any other failure
and the workflow continues.
-/
theorem C4_config_errors :
    (∀ (sv : Services) (step : Step) (ctx : Ctx), step.params ≠ .null →
      step.type ∉ ["observer", "browser", "claudeTeam", "scc", "delay", "condition"] →
      executeStep sv step ctx = .err ("Unknown step type: " ++ step.type)) ∧
    (∀ (sv : Services) (a : String) (p : JSValue),
      a ∉ ["analyze", "getEvents", "getReferences", "storeEvent"] →
      executeObserverAction sv (.str a) p = .err ("Unknown observer action: " ++ a)) ∧
    (∀ (sv : Services) (a : String) (p : JSValue),
      a ∉ ["broadcast", "askTeam", "getStatus"] →
      executeClaudeTeamAction sv (.str a) p = .err ("Unknown claudeTeam action: " ++ a)) ∧
    (∀ (sv : Services) (a : String) (p : JSValue), a ∉ ["sendFeedback", "getHealth"] →
      executeSccAction sv (.str a) p = .err ("Unknown scc action: " ++ a)) ∧
    (∀ (params : JSValue) (ctx : Ctx) (op : String), propGet params "operator" = .str op →
      op ∉ ["equals", "notEquals", "greaterThan", "lessThan", "contains", "exists"] →
      evaluateCondition params ctx = .err ("Unknown operator: " ++ op)) ∧
    (∀ (exec : StepExec) (s : RunningState) (tr : List Nat) (step : Step) (msg : String),
      exec s.i step s.ctx = .err msg → step.optional = false →
      stepOnce exec (.running s, tr) step =
        (.halted ⟨false, s.i, s.acc ++ [⟨step.name, false, none, some msg⟩],
          some ("Workflow stopped at step: " ++ step.name), none⟩, tr ++ [s.i])) ∧
    (∀ (exec : StepExec) (s : RunningState) (tr : List Nat) (step : Step) (msg : String),
      exec s.i step s.ctx = .err msg → step.optional = true →
      stepOnce exec (.running s, tr) step =
        (.running ⟨s.i + 1, s.ctx, s.acc ++ [⟨step.name, false, none, some msg⟩]⟩,
          tr ++ [s.i])) := by
  refine ⟨?_, ?_, ?_, ?_, ?_, ?_, ?_⟩
  · intro sv step ctx hnull htype
    obtain ⟨nm, ty, act, pa, opt⟩ := step
    simp only [List.mem_cons, List.not_mem_nil, or_false, not_or] at htype
    cases pa with
    | null => exact absurd rfl hnull
    | undefined => unfold executeStep; split <;> simp_all
    | bool b => unfold executeStep; split <;> simp_all
    | num n => unfold executeStep; split <;> simp_all
    | str s => unfold executeStep; split <;> simp_all
    | obj entries => unfold executeStep; split <;> simp_all
    | arr elems => unfold executeStep; split <;> simp_all
  · intro sv a p ha
    simp only [List.mem_cons, List.not_mem_nil, or_false, not_or] at ha
    unfold executeObserverAction
    split <;> simp_all [jsToString]
  · intro sv a p ha
    simp only [List.mem_cons, List.not_mem_nil, or_false, not_or] at ha
    unfold executeClaudeTeamAction
    split <;> simp_all [jsToString]
  · intro sv a p ha
    simp only [List.mem_cons, List.not_mem_nil, or_false, not_or] at ha
    unfold executeSccAction
    split <;> simp_all [jsToString]
  · intro params ctx op hop hno
    simp only [List.mem_cons, List.not_mem_nil, or_false, not_or] at hno
    unfold evaluateCondition
    rw [hop]
    split <;> simp_all [jsToString]
  · intro exec s tr step msg hex hopt
    exact stepOnce_err_halt exec s tr step msg hex hopt
  · intro exec s tr step msg hex hopt
    exact stepOnce_err_opt exec s tr step msg hex hopt

/-- **C4**, the claim as stated is false: a step with unknown type `"bogus"`
marked `optional: true` does NOT halt the workflow — the run continues and
finishes successfully with both steps attempted. -/
theorem C4_counterexample :
    executeWorkflow (execViaServices offlineServices) bogusOptWf =
      .ok ⟨true, 2,
        [⟨"s1", false, none, some "Unknown step type: bogus"⟩,
         ⟨"s2", true, some (.obj [("broadcast", .bool true)]), none⟩],
        none, some [("broadcast", .bool true)]⟩ ∧
    (⟨"s1", "bogus", JSValue.undefined, .obj [], true⟩ : Step).optional = true :=
  ⟨rfl, rfl⟩

/-- **C4** witness: the unknown-step-type part applied to the concrete bogus
step. -/
theorem C4_witness :
    executeStep offlineServices ⟨"s1", "bogus", .undefined, .obj [], true⟩ [] =
      .err "Unknown step type: bogus" :=
  C4_config_errors.1 offlineServices ⟨"s1", "bogus", .undefined, .obj [], true⟩ []
    (by simp) (by decide)

/--
**C5** (confirmed): after each successful step whose result is a non-null
object, the result's entries are shallow-merged into the execution context —
the merged value for a key is the last occurrence among the step's result
entries, overwriting any same-named context key, and other keys keep their
previous value — and the next loop iteration carries exactly that merged
context into the next step's execution (hence its interpolation). In the
concrete run where step A returns `\x7bx: 1\x7d` and step B returns
`\x7bx: 2\x7d`, the context afterwards has `x == 2` and step C interpolating
the placeholder for `x` resolves it to `"2"`.
-/
theorem C5_context_merge :
    (∀ (ctx entries : Ctx) (k : String),
      ctxGet (mergeEntries ctx entries) k =
        match List.lookup k entries.reverse with
        | some v => v
        | none => ctxGet ctx k) ∧
    (∀ (exec : StepExec) (s : RunningState) (tr : List Nat) (step : Step)
      (entries : Ctx), exec s.i step s.ctx = .ok (.obj entries) →
      stepOnce exec (.running s, tr) step =
        (.running ⟨s.i + 1, mergeEntries s.ctx entries,
          s.acc ++ [⟨step.name, true, some (.obj entries), none⟩]⟩, tr ++ [s.i])) ∧
    (executeWorkflowT mergeProbeExec mergeWf =
      .ok (⟨true, 3,
        [⟨"A", true, some (.obj [("x", .num 1)]), none⟩,
         ⟨"B", true, some (.obj [("x", .num 2)]), none⟩,
         ⟨"C", true, some (.obj [("probe", .str "2")]), none⟩],
        none, some [("x", .num 2), ("probe", .str "2")]⟩, [0, 1, 2])) ∧
    (ctxGet [("x", JSValue.num 2), ("probe", JSValue.str "2")] "x" = .num 2) ∧
    (interpString [("x", JSValue.num 2)] "\x7b\x7bx\x7d\x7d" = "2") := by
  refine ⟨?_, ?_, rfl, rfl, rfl⟩
  · intro ctx entries k
    exact ctxGet_mergeEntries k entries ctx
  · intro exec s tr step entries hex
    have h := stepOnce_ok exec s tr step (.obj entries) hex
    simpa [mergeResult] using h

/-- **C5** witness: the merge equation applied to step A's concrete result. -/
theorem C5_witness :
    stepOnce mergeProbeExec (.running ⟨0, [], []⟩, []) (probeStep "A") =
      (.running ⟨1, mergeEntries [] [("x", .num 1)],
        [⟨"A", true, some (.obj [("x", .num 1)]), none⟩]⟩, [0]) :=
  C5_context_merge.2.1 mergeProbeExec ⟨0, [], []⟩ [] (probeStep "A")
    [("x", .num 1)] rfl

/--
**C8** (confirmed): `evaluateCondition(\x7bfield, operator, value\x7d, context)`
looks the field up directly in the context and returns a `\x7bpass: bool\x7d`
object according to the fixed operator set — `equals`/`notEquals` (strict
equality), `greaterThan`/`lessThan` (JS relational comparison), `contains`
(string containment on the string-coerced field value), `exists` (field
present and non-null); for context `\x7bn: 5\x7d`, `greaterThan 3` passes and
`lessThan 3` does not; any other operator string raises an error naming it.
-/
theorem C8_condition_operators :
    (∀ (ctx : Ctx) (f : String) (v : JSValue),
      evaluateCondition (.obj [("field", .str f), ("operator", .str "equals"),
        ("value", v)]) ctx = .ok (.obj [("pass", .bool (jsStrictEq (ctxGet ctx f) v))])) ∧
    (∀ (ctx : Ctx) (f : String) (v : JSValue),
      evaluateCondition (.obj [("field", .str f), ("operator", .str "notEquals"),
        ("value", v)]) ctx = .ok (.obj [("pass", .bool (!jsStrictEq (ctxGet ctx f) v))])) ∧
    (∀ (ctx : Ctx) (f : String) (v : JSValue),
      evaluateCondition (.obj [("field", .str f), ("operator", .str "greaterThan"),
        ("value", v)]) ctx = .ok (.obj [("pass", .bool (jsGreater (ctxGet ctx f) v))])) ∧
    (∀ (ctx : Ctx) (f : String) (v : JSValue),
      evaluateCondition (.obj [("field", .str f), ("operator", .str "lessThan"),
        ("value", v)]) ctx = .ok (.obj [("pass", .bool (jsLess (ctxGet ctx f) v))])) ∧
    (∀ (ctx : Ctx) (f : String) (v : JSValue),
      evaluateCondition (.obj [("field", .str f), ("operator", .str "contains"),
        ("value", v)]) ctx =
        .ok (.obj [("pass", .bool (jsIncludes (jsToString (ctxGet ctx f)) v))])) ∧
    (∀ (ctx : Ctx) (f : String) (v : JSValue),
      evaluateCondition (.obj [("field", .str f), ("operator", .str "exists"),
        ("value", v)]) ctx = .ok (.obj [("pass", .bool (jsExistsCheck (ctxGet ctx f)))])) ∧
    (evaluateCondition (.obj [("field", .str "n"), ("operator", .str "greaterThan"),
      ("value", .num 3)]) [("n", .num 5)] = .ok (.obj [("pass", .bool true)])) ∧
    (evaluateCondition (.obj [("field", .str "n"), ("operator", .str "lessThan"),
      ("value", .num 3)]) [("n", .num 5)] = .ok (.obj [("pass", .bool false)])) ∧
    (∀ (params : JSValue) (ctx : Ctx) (op : String), propGet params "operator" = .str op →
      op ∉ ["equals", "notEquals", "greaterThan", "lessThan", "contains", "exists"] →
      evaluateCondition params ctx = .err ("Unknown operator: " ++ op)) ∧
    (∀ (params : JSValue) (ctx : Ctx), (∀ s, propGet params "operator" ≠ .str s) →
      evaluateCondition params ctx =
        .err ("Unknown operator: " ++ jsToString (propGet params "operator"))) := by
  refine ⟨?_, ?_, ?_, ?_, ?_, ?_, rfl, rfl, ?_, ?_⟩
  · intro cA fA vA
    rfl
  · intro cB fB vB
    rfl
  · intro cC fC vC
    rfl
  · intro cD fD vD
    rfl
  · intro cE fE vE
    rfl
  · intro cF fF vF
    rfl
  · intro params ctx op hop hno
    simp only [List.mem_cons, List.not_mem_nil, or_false, not_or] at hno
    unfold evaluateCondition
    rw [hop]
    split <;> simp_all [jsToString]
  · intro params ctx hns
    cases h : propGet params "operator" with
    | str s => exact absurd h (hns s)
    | undefined => unfold evaluateCondition; rw [h]
    | null => unfold evaluateCondition; rw [h]
    | bool b => unfold evaluateCondition; rw [h]
    | num n => unfold evaluateCondition; rw [h]
    | obj entries => unfold evaluateCondition; rw [h]
    | arr elems => unfold evaluateCondition; rw [h]

/-- **C8** witness: the unknown-operator part applied to a concrete operator
string. -/
theorem C8_witness :
    evaluateCondition (.obj [("field", .str "n"), ("operator", .str "matches"),
      ("value", .num 3)]) [("n", .num 5)] = .err "Unknown operator: matches" :=
  C8_condition_operators.2.2.2.2.2.2.2.2.1
    (.obj [("field", .str "n"), ("operator", .str "matches"), ("value", .num 3)])
    [("n", .num 5)] "matches" rfl (by decide)

/--
**C6** (amended): `interpolate(params, context)` returns `params` with each
`\x7b\x7bidentifier\x7d\x7d` token inside a string value replaced by
`String(context[identifier])` when the context holds a defined value for that
key and left as the literal token text otherwise, never throwing; multiple
placeholders in one string resolve independently, non-string scalars pass
through unchanged, and nested objects are interpolated recursively — but the
result is NOT structurally identical to `params` in general: an array value
is rebuilt as an index-keyed plain object (its elements still interpolated).
-/
theorem C6_interpolation :
    (∀ (ctx : Ctx) (name rest : List Char), name ≠ [] →
      (∀ c ∈ name, isWordChar c = true) →
      interpChars ctx .normal ('{' :: '{' :: (name ++ '}' :: '}' :: rest)) =
        replaceVar ctx name ++ interpChars ctx .normal rest) ∧
    (∀ (ctx : Ctx) (name : List Char),
      (ctxGet ctx (String.mk name) = .undefined →
        replaceVar ctx name = '{' :: '{' :: (name ++ ['}', '}'])) ∧
      (∀ v, ctxGet ctx (String.mk name) = v → v ≠ .undefined →
        replaceVar ctx name = (jsToString v).data)) ∧
    (∀ (ctx : Ctx) (c : Char) (cs : List Char), (c == '{') = false →
      interpChars ctx .normal (c :: cs) = c :: interpChars ctx .normal cs) ∧
    (∀ (ctx : Ctx) (cs : List Char),
      interpChars ctx .normal ('{' :: '{' :: '{' :: cs) =
        '{' :: interpChars ctx .normal ('{' :: '{' :: cs)) ∧
    (interpString [("a", .str "Z")] "\x7b\x7b\x7ba\x7d\x7d" = "\x7bZ") ∧
    (∀ (ctx : Ctx) (n : Int), interpValue ctx (.num n) = .num n) ∧
    (∀ (ctx : Ctx) (b : Bool), interpValue ctx (.bool b) = .bool b) ∧
    (interpValue [] .null = .null ∧ interpValue [] .undefined = .undefined) ∧
    (∀ (ctx : Ctx) (k : String) (v : JSValue) (rest : List (String × JSValue)),
      interpEntries ctx ((k, v) :: rest) = (k, interpValue ctx v) :: interpEntries ctx rest) ∧
    (∀ (ctx : Ctx) (kvs : List (String × JSValue)),
      interpValue ctx (.obj kvs) = .obj (interpEntries ctx kvs)) ∧
    (interpolateParams (.obj [("url", .str "\x7b\x7bbase\x7d\x7d/path")])
      [("base", .str "http://x")] = .obj [("url", .str "http://x/path")]) ∧
    (interpolateParams (.obj [("a", .str "\x7b\x7bmissing\x7d\x7d")]) [] =
      .obj [("a", .str "\x7b\x7bmissing\x7d\x7d")]) ∧
    (interpString [("a", .str "A"), ("b", .num 7)]
      "\x7b\x7ba\x7d\x7d-\x7b\x7bb\x7d\x7d" = "A-7") := by
  refine ⟨interpChars_token, ?_, interpChars_plain, fun _ _ => rfl, rfl,
    fun _ _ => rfl, fun _ _ => rfl, ⟨rfl, rfl⟩, fun _ _ _ _ => rfl, fun _ _ => rfl,
    rfl, rfl, rfl⟩
  intro ctx name
  constructor
  · intro h
    unfold replaceVar
    rw [h]
  · intro v hv hne
    unfold replaceVar
    rw [hv]
    cases v with
    | undefined => exact absurd rfl hne
    | null => rfl
    | bool b => cases b <;> rfl
    | num n => rfl
    | str s => rfl
    | obj entries => rfl
    | arr elems => rfl

/-- **C6**, the claim as stated is false: a params value containing an array
(and no placeholder at all) is not returned structurally identical — the
array comes back as an index-keyed plain object. -/
theorem C6_counterexample :
    interpolateParams (.obj [("a", .arr [.num 1])]) [] =
      .obj [("a", .obj [("0", .num 1)])] ∧
    JSValue.obj [("a", .obj [("0", .num 1)])] ≠ .obj [("a", .arr [.num 1])] := by
  refine ⟨rfl, ?_⟩
  intro h
  simp only [JSValue.obj.injEq, List.cons.injEq, Prod.mk.injEq, and_true, true_and] at h
  exact JSValue.noConfusion h

/-- **C6** witness: the token-replacement equation applied to the concrete
placeholder for `base` followed by literal text. -/
theorem C6_witness :
    interpChars [("base", JSValue.str "http://x")] .normal
        ('{' :: '{' :: (['b', 'a', 's', 'e'] ++ '}' :: '}' :: ['/', 'p'])) =
      replaceVar [("base", JSValue.str "http://x")] ['b', 'a', 's', 'e'] ++
        interpChars [("base", JSValue.str "http://x")] .normal ['/', 'p'] :=
  C6_interpolation.1 [("base", JSValue.str "http://x")] ['b', 'a', 's', 'e']
    ['/', 'p'] (by decide) (by decide)

/--
**C9** (amended): a step of type `delay` suspends execution for
`resolvedParams.ms || 1000` milliseconds — the default also applies to falsy
`ms` values — but then returns `\x7bdelayed: resolvedParams.ms\x7d` with the
raw, un-defaulted `ms` property; so with no `ms` parameter the step sleeps
1000 ms and returns `\x7bdelayed: undefined\x7d`, not
`\x7bdelayed: 1000\x7d`.
-/
theorem C9_delay (sv : Services) (nm : String) (act : JSValue)
    (kvs : List (String × JSValue)) (opt : Bool) (ctx : Ctx) :
    executeStep sv ⟨nm, "delay", act, .obj kvs, opt⟩ ctx =
      .ok (.obj [("delayed", propGet (interpolateParams (.obj kvs) ctx) "ms")]) ∧
    (∀ p : JSValue, jsTruthy (propGet p "ms") = true → sleptMs p = propGet p "ms") ∧
    (∀ p : JSValue, jsTruthy (propGet p "ms") = false → sleptMs p = .num 1000) ∧
    sleptMs (interpolateParams (.obj []) ([] : Ctx)) = .num 1000 := by
  refine ⟨rfl, ?_, ?_, rfl⟩
  · intro p h
    simp [sleptMs, h]
  · intro p h
    simp [sleptMs, h]

/-- **C9**, the claim as stated is false: with no `ms` parameter the delay
step returns `\x7bdelayed: undefined\x7d`, not `\x7bdelayed: 1000\x7d`. -/
theorem C9_counterexample :
    executeStep offlineServices bareDelayStep [] = .ok (.obj [("delayed", .undefined)]) ∧
    JSValue.undefined ≠ .num 1000 :=
  ⟨rfl, fun h => JSValue.noConfusion h⟩

/-- **C9** witness: the amended theorem applied to a delay step carrying
`ms = 2000`, whose sleep duration is the raw truthy value. -/
theorem C9_witness :
    sleptMs (interpolateParams (.obj [("ms", JSValue.num 2000)]) []) =
      propGet (interpolateParams (.obj [("ms", JSValue.num 2000)]) []) "ms" :=
  (C9_delay offlineServices "d" .undefined [("ms", .num 2000)] false []).2.1
    (interpolateParams (.obj [("ms", .num 2000)]) []) rfl

/--
**C10** (confirmed): for every params value that is an array,
`interpolateParams` does not return the array unchanged — it recurses through
the generic object branch and rebuilds it as a plain object keyed by the
array's decimal indices, while placeholders inside the array's string
elements are still substituted.
-/
theorem C10_array_params :
    (∀ (ctx : Ctx) (xs : List JSValue),
      interpolateParams (.arr xs) ctx = .obj (interpArrEntries ctx 0 xs)) ∧
    (∀ (ctx : Ctx) (xs : List JSValue), interpolateParams (.arr xs) ctx ≠ .arr xs) ∧
    (∀ (ctx : Ctx) (xs : List JSValue),
      interpValue ctx (.arr xs) = .obj (interpArrEntries ctx 0 xs)) ∧
    (∀ (ctx : Ctx) (i : Nat) (x : JSValue) (rest : List JSValue),
      interpArrEntries ctx i (x :: rest) =
        (toString i, interpValue ctx x) :: interpArrEntries ctx (i + 1) rest) ∧
    (interpolateParams (.arr [.str "\x7b\x7ba\x7d\x7d", .num 2]) [("a", .str "z")] =
      .obj [("0", .str "z"), ("1", .num 2)]) := by
  refine ⟨fun _ _ => rfl, ?_, fun _ _ => rfl, fun _ _ _ _ => rfl, rfl⟩
  intro ctx xs h
  rw [show interpolateParams (.arr xs) ctx = .obj (interpArrEntries ctx 0 xs) from rfl] at h
  exact JSValue.noConfusion h

/-- **C10** witness: the array-rebuild inequation applied to a concrete
one-element array. -/
theorem C10_witness :
    interpolateParams (.arr [JSValue.num 1]) [] ≠ .arr [JSValue.num 1] :=
  C10_array_params.2.1 [] [JSValue.num 1]

end Workflows
